import Mathlib

/-!
Verification of the concurrent event-processing core of `root_serialization`
(`src/Lane.cc`, `src/RNTupleOutputer.cc`) against its natural-language
specification.

The development shallowly embeds the code: the reference-counted completion
token (`TaskHolder`), the per-lane scheduling loop, the fan-out/join of
`Lane::processEventAsync`, the waiter / product-ready task construction, the
serialized collate funnel of `RNTupleOutputer`, and the `RNTupleOutputer`
state mutations (`setupForLane`, `collateProducts`, `productReadyAsync`).
-/

namespace RootSerialization

/-! ### Completion token (TaskHolder)

Modelled from the spec: `TaskHolder` is declared in a header that is not part
of `src/`; the spec (§4.1 CompletionToken) describes it as a multi-owner,
reference-counted handle: `clone` increments the shared count, `release`
decrements it, and when the count reaches zero the bound continuation fires
(exactly once). We model the token's refcount/fire behaviour as a state
`(count, fires)` acted on by a trace of clone/release operations. -/

/-- An operation performed on one completion token: taking a new counted copy
(`clone`, a by-value lambda capture in the C++ code) or dropping one
(`release`, a `TaskHolder` destructor running on a non-moved-from copy). -/
inductive TokOp where
  | clone : TokOp
  | release : TokOp
deriving DecidableEq, Repr

/-- Effect of one token operation on the live-copy count. A release of the
last copy drops the count to zero (and fires the continuation). -/
def stepCount (c : Nat) : TokOp → Nat
  | TokOp.clone => c + 1
  | TokOp.release => c - 1

/-- Effect of one token operation on the `(count, fires)` state:
`fires` counts how many times the bound continuation has been scheduled;
it is incremented exactly when a release brings the count from 1 to 0. -/
def stepTok : Nat × Nat → TokOp → Nat × Nat
  | (c, f), TokOp.clone => (c + 1, f)
  | (c, f), TokOp.release => if c = 1 then (0, f + 1) else (c - 1, f)

/-- Run a trace of token operations from a given `(count, fires)` state. -/
def runTok (s : Nat × Nat) (ops : List TokOp) : Nat × Nat :=
  ops.foldl stepTok s

/-- A trace is valid from count `c` when every operation executes while at
least one live copy exists (cloning happens from a live copy; every release
destroys a copy that is still live). -/
def validTok (c : Nat) : List TokOp → Bool
  | [] => true
  | op :: rest => decide (1 ≤ c) && validTok (stepCount c op) rest

/-- Number of clones in a trace. -/
def countClones (ops : List TokOp) : Nat := ops.count TokOp.clone

/-- Number of releases in a trace. -/
def countReleases (ops : List TokOp) : Nat := ops.count TokOp.release

/-- From `src/Lane.cc` (`Lane::processEventAsync`, lines 49–66): the outer
completion holder is created once (the local `holder`, one live copy), one
counted copy is captured by value into the task chain of each data-product
slot (the loop over `source_->dataProducts(index_)`), and the issuer's base
copy is destroyed when `processEventAsync` returns. So for a lane with `dps`
data-product slots the outer token receives `dps.length + 1` holds in
total. -/
def outerHolds {α : Type} (dps : List α) : Nat := dps.length + 1

/-- The count reached after running a trace (count component only). -/
def runCount (c : Nat) (ops : List TokOp) : Nat :=
  ops.foldl stepCount c

theorem countClones_nil : countClones [] = 0 := rfl

theorem countReleases_nil : countReleases [] = 0 := rfl

theorem countClones_cons_clone (rest : List TokOp) :
    countClones (TokOp.clone :: rest) = countClones rest + 1 := by
  simp [countClones, List.count_cons]

theorem countClones_cons_release (rest : List TokOp) :
    countClones (TokOp.release :: rest) = countClones rest := by
  simp [countClones, List.count_cons]

theorem countReleases_cons_clone (rest : List TokOp) :
    countReleases (TokOp.clone :: rest) = countReleases rest := by
  simp [countReleases, List.count_cons]

theorem countReleases_cons_release (rest : List TokOp) :
    countReleases (TokOp.release :: rest) = countReleases rest + 1 := by
  simp [countReleases, List.count_cons]

/-- The count component of `stepTok` agrees with `stepCount`. -/
theorem stepTok_fst (s : Nat × Nat) (op : TokOp) :
    (stepTok s op).1 = stepCount s.1 op := by
  obtain ⟨c, f⟩ := s
  cases op with
  | clone => rfl
  | release =>
    simp only [stepTok, stepCount]
    by_cases h1 : c = 1
    · subst h1; simp
    · simp [h1]

/-- The count component of a token run is independent of the fire counter. -/
theorem runTok_fst (ops : List TokOp) :
    ∀ (c f : Nat), (runTok (c, f) ops).1 = runCount c ops := by
  induction ops with
  | nil => intro c f; rfl
  | cons op rest ih =>
    intro c f
    simp only [runTok, runCount, List.foldl_cons]
    have h1 : stepTok (c, f) op = (stepCount c op, (stepTok (c, f) op).2) :=
      Prod.ext (stepTok_fst (c, f) op) rfl
    rw [h1]
    exact ih (stepCount c op) (stepTok (c, f) op).2

/-- A valid trace never underflows: releases never exceed the initial count
plus clones, and the final count is initial count plus clones minus
releases. -/
theorem runCount_eq (ops : List TokOp) :
    ∀ (c : Nat), validTok c ops = true →
      countReleases ops ≤ c + countClones ops ∧
      runCount c ops = c + countClones ops - countReleases ops := by
  induction ops with
  | nil =>
    intro c _
    simp [runCount, countClones_nil, countReleases_nil]
  | cons op rest ih =>
    intro c hv
    simp only [validTok, Bool.and_eq_true, decide_eq_true_eq] at hv
    obtain ⟨hc, hrest⟩ := hv
    cases op with
    | clone =>
      simp only [stepCount] at hrest
      have h := ih (c + 1) hrest
      rw [countClones_cons_clone, countReleases_cons_clone]
      simp only [runCount, List.foldl_cons, stepCount]
      simp only [runCount] at h
      omega
    | release =>
      simp only [stepCount] at hrest
      have h := ih (c - 1) hrest
      rw [countClones_cons_release, countReleases_cons_release]
      simp only [runCount, List.foldl_cons, stepCount]
      simp only [runCount] at h
      omega

/-- On a valid trace from a live token (`1 ≤ c`), the continuation fires
exactly when the final count is zero and the trace is nonempty; otherwise the
fire count is untouched. -/
theorem runTok_fires (ops : List TokOp) :
    ∀ (c f : Nat), 1 ≤ c → validTok c ops = true →
      (runTok (c, f) ops).2 =
        f + (if runCount c ops = 0 ∧ ops ≠ [] then 1 else 0) := by
  induction ops with
  | nil =>
    intro c f hc _
    simp [runTok]
  | cons op rest ih =>
    intro c f hc hv
    simp only [validTok, Bool.and_eq_true, decide_eq_true_eq] at hv
    obtain ⟨_, hrest⟩ := hv
    cases op with
    | clone =>
      simp only [stepCount] at hrest
      simp only [runTok, runCount, List.foldl_cons, stepTok, stepCount]
      cases rest with
      | nil => simp [runTok, runCount]
      | cons r rs =>
        have h := ih (c + 1) f (by omega) hrest
        simp only [runTok, runCount] at h
        rw [h]
        simp
    | release =>
      simp only [stepCount] at hrest
      by_cases h1 : c = 1
      · subst h1
        simp only [runTok, runCount, List.foldl_cons, stepTok, if_pos rfl, stepCount]
        cases rest with
        | nil => simp [runTok, runCount]
        | cons r rs =>
          simp only [validTok, Bool.and_eq_true, decide_eq_true_eq] at hrest
          omega
      · simp only [runTok, runCount, List.foldl_cons, stepTok, if_neg h1, stepCount]
        cases rest with
        | nil =>
          simp only [List.foldl_nil, ne_eq]
          have hne : ¬(c - 1 = 0) := by omega
          simp [hne]
        | cons r rs =>
          have hge : 1 ≤ c - 1 := by
            simp only [validTok, Bool.and_eq_true, decide_eq_true_eq] at hrest
            omega
          have h := ih (c - 1) f hge hrest
          simp only [runTok, runCount] at h
          rw [h]
          simp

/-- Validity splits across list append: the first part is valid, and the
remainder is valid from the count reached after the first part. -/
theorem validTok_append (p q : List TokOp) :
    ∀ (c : Nat), validTok c (p ++ q) = true →
      validTok c p = true ∧ validTok (runCount c p) q = true := by
  induction p with
  | nil =>
    intro c h
    simpa [runCount, validTok] using h
  | cons op rest ih =>
    intro c h
    simp only [List.cons_append, validTok, Bool.and_eq_true, decide_eq_true_eq] at h
    obtain ⟨hc, hrest⟩ := h
    have h2 := ih (stepCount c op) hrest
    refine ⟨?_, ?_⟩
    · simp only [validTok, Bool.and_eq_true, decide_eq_true_eq]
      exact ⟨hc, h2.1⟩
    · simpa [runCount, List.foldl_cons] using h2.2

theorem validTok_head_pos (c : Nat) (op : TokOp) (rest : List TokOp)
    (h : validTok c (op :: rest) = true) : 1 ≤ c := by
  simp only [validTok, Bool.and_eq_true, decide_eq_true_eq] at h
  exact h.1

/-! ### Lane: waiters and per-slot task construction (`src/Lane.cc`) -/

/-- One simulated-delay stage, one per data-product slot when the feature is
enabled (`src/Lane.cc` lines 10–17: `waiters_.emplace_back(ib, iScaleFactor)`).
The C++ `double` scale factor is modelled as a rational. -/
structure Waiter where
  index : Nat
  scaleFactor : Rat
deriving DecidableEq, Repr

/-- The per-lane state relevant to task construction: the lane index and the
waiter list (`src/Lane.cc`). The data products live in the shared source; only
their number matters here. -/
structure Lane where
  index : Nat
  numDataProducts : Nat
  waiters : List Waiter
deriving DecidableEq, Repr

/-- From `src/Lane.cc` lines 10–17 (`Lane::Lane`): when the scale factor is
non-negative, one `Waiter` is created per data-product slot of this lane;
when it is negative, `waiters_` stays empty (the delay feature is
disabled). -/
def Lane.init (iIndex : Nat) (numDataProducts : Nat) (iScaleFactor : Rat) : Lane :=
  { index := iIndex
    numDataProducts := numDataProducts
    waiters :=
      if 0 ≤ iScaleFactor then
        (List.range numDataProducts).map
          (fun ib => { index := ib, scaleFactor := iScaleFactor })
      else [] }

/-- The task value threaded through `makeWaiterTask` / `makeTaskForDataProduct`
for one data-product slot: either the original `TaskHolder` passed in, or a
freshly built `TaskHolder` wrapping a functor that runs a stage and then hands
off to the inner task. The outermost constructor is the stage that executes
first when the slot's `getAsync` completes. -/
inductive TaskChain (α : Type) where
  | holder (h : α) : TaskChain α
  | waitWrap (index : Nat) (inner : TaskChain α) : TaskChain α
  | productReadyWrap (laneIndex : Nat) (inner : TaskChain α) : TaskChain α
deriving DecidableEq

/-- From `src/Lane.cc` lines 24–35 (`Lane::makeWaiterTask`): when `waiters_`
is empty the holder is returned unchanged; otherwise a new task is built that
runs `waiters_[index].waitAsync` and passes the holder on. -/
def Lane.makeWaiterTask {α : Type} (lane : Lane) (index : Nat)
    (holder : TaskChain α) : TaskChain α :=
  if lane.waiters.isEmpty then holder
  else TaskChain.waitWrap index holder

/-- From `src/Lane.cc` lines 37–47 (`Lane::makeTaskForDataProduct`): when the
outputer uses `productReadyAsync`, the holder is first wrapped in a task that
calls `outputer.productReadyAsync(laneIndex, iDP, std::move(holder))` and the
result is handed to `makeWaiterTask`; otherwise the holder goes to
`makeWaiterTask` directly. -/
def Lane.makeTaskForDataProduct {α : Type} (lane : Lane) (index : Nat)
    (usesProductReadyAsync : Bool) (holder : TaskChain α) : TaskChain α :=
  if usesProductReadyAsync then
    lane.makeWaiterTask index (TaskChain.productReadyWrap lane.index holder)
  else
    lane.makeWaiterTask index holder

/-- Observable stages of one slot's task chain, in execution order. Reaching
the original holder means releasing the slot's branch token (for the
product-ready wrapper, the hook receives the holder by value and the release
happens inside/at the end of the hook call). -/
inductive SlotStage where
  | waitStage : SlotStage
  | productReadyStage : SlotStage
  | releaseStage : SlotStage
deriving DecidableEq, Repr

/-- Execution order of the stages of a slot task chain (outermost wrapper
executes first; the chain ends by releasing the branch token). -/
def TaskChain.stages {α : Type} : TaskChain α → List SlotStage
  | TaskChain.holder _ => [SlotStage.releaseStage]
  | TaskChain.waitWrap _ inner => SlotStage.waitStage :: inner.stages
  | TaskChain.productReadyWrap _ inner => SlotStage.productReadyStage :: inner.stages

/-! ### Claim theorems C1, C6, C7 -/

/-- Claim C1: for every event processed by `Lane::processEventAsync` with
fan-out width `K ≥ 0` data-product slots, the outer completion continuation
fires exactly once, and only after all `K + 1` holds on the outer holder
(one clone per slot branch plus the issuer's base copy) have been released:
for any valid trace of the outer token's operations containing `K` clones and
`K + 1` releases, the fire count at the end is exactly 1, and on every proper
prefix of the trace it is still 0. With `K = 0` the continuation fires from
the base release alone (see the witness). -/
theorem processEventAsync_join_exactly_once {α : Type} (dps : List α)
    (ops : List TokOp) (hvalid : validTok 1 ops = true)
    (hclones : countClones ops = dps.length)
    (hreleases : countReleases ops = outerHolds dps) :
    (runTok (1, 0) ops).2 = 1 ∧
      ∀ p q, ops = p ++ q → q ≠ [] → (runTok (1, 0) p).2 = 0 := by
  have hcount := runCount_eq ops 1 hvalid
  have hzero : runCount 1 ops = 0 := by
    rw [hcount.2, hclones, hreleases]
    simp only [outerHolds]
    omega
  have hne : ops ≠ [] := by
    intro hnil
    rw [hnil] at hreleases
    simp [countReleases_nil, outerHolds] at hreleases
  constructor
  · rw [runTok_fires ops 1 0 (le_refl 1) hvalid, hzero]
    simp [hne]
  · intro p q hpq hq
    have hsplit := validTok_append p q 1 (by rw [← hpq]; exact hvalid)
    have hpos : 1 ≤ runCount 1 p := by
      cases q with
      | nil => exact absurd rfl hq
      | cons r rs => exact validTok_head_pos _ r rs hsplit.2
    rw [runTok_fires p 1 0 (le_refl 1) hsplit.1]
    have : ¬(runCount 1 p = 0 ∧ p ≠ []) := by
      intro hcon
      omega
    simp [this]

/-- Witness for C1 at `K = 0`: with no data-product slots and the single base
release, the outer continuation fires (exactly once) from that release
alone. -/
theorem processEventAsync_join_exactly_once_witness :
    (runTok (1, 0) [TokOp.release]).2 = 1 :=
  (processEventAsync_join_exactly_once ([] : List Unit) [TokOp.release]
    (by decide) (by decide) (by decide)).1

/-- Claim C6: when the simulated-delay feature is disabled (negative scale
factor at `Lane` construction), `waiters_` is empty and `makeWaiterTask`
returns its holder argument unchanged for every slot, so the downstream
continuation is scheduled with no artificial delay. -/
theorem disabled_waiter_is_identity {α : Type} (iIndex numDPs : Nat)
    (iScaleFactor : Rat) (hneg : iScaleFactor < 0) (index : Nat)
    (holder : TaskChain α) :
    (Lane.init iIndex numDPs iScaleFactor).waiters = [] ∧
      (Lane.init iIndex numDPs iScaleFactor).makeWaiterTask index holder = holder := by
  have h : ¬(0 ≤ iScaleFactor) := not_le.mpr hneg
  refine ⟨?_, ?_⟩
  · simp [Lane.init, h]
  · simp [Lane.makeWaiterTask, Lane.init, h]

/-- Witness for C6: a lane built with scale factor `-1` and 3 data products
has no waiters, and its wait stage is the identity on a concrete holder. -/
theorem disabled_waiter_is_identity_witness :
    (Lane.init 0 3 (-1)).waiters = [] ∧
      (Lane.init 0 3 (-1)).makeWaiterTask 2 (TaskChain.holder ()) =
        TaskChain.holder () :=
  disabled_waiter_is_identity 0 3 (-1) (by norm_num) 2 (TaskChain.holder ())

/-- Claim C7: for every data-product slot, the task chain built by
`makeTaskForDataProduct` contains the `productReadyAsync` stage iff
`outputer.usesProductReadyAsync()` is true; and when it does, that stage runs
after the slot's wait stage (when a waiter exists) and before the release of
the slot's branch token. -/
theorem productReady_hook_iff_and_order {α : Type} (lane : Lane) (slot : Nat)
    (u : Bool) (h : α) :
    (SlotStage.productReadyStage ∈
        (lane.makeTaskForDataProduct slot u (TaskChain.holder h)).stages ↔
      u = true) ∧
    (u = true →
      (lane.makeTaskForDataProduct slot u (TaskChain.holder h)).stages.indexOf
          SlotStage.productReadyStage <
        (lane.makeTaskForDataProduct slot u (TaskChain.holder h)).stages.indexOf
          SlotStage.releaseStage ∧
      (lane.waiters ≠ [] →
        (lane.makeTaskForDataProduct slot u (TaskChain.holder h)).stages.indexOf
            SlotStage.waitStage <
          (lane.makeTaskForDataProduct slot u (TaskChain.holder h)).stages.indexOf
            SlotStage.productReadyStage)) := by
  by_cases hw : lane.waiters.isEmpty
  · have hwl : lane.waiters = [] := List.isEmpty_iff.mp hw
    cases u with
    | false =>
      have hst : (lane.makeTaskForDataProduct slot false (TaskChain.holder h)).stages
          = [SlotStage.releaseStage] := by
        simp [Lane.makeTaskForDataProduct, Lane.makeWaiterTask, hw, TaskChain.stages]
      rw [hst]
      exact ⟨by decide, fun hft => nomatch hft⟩
    | true =>
      have hst : (lane.makeTaskForDataProduct slot true (TaskChain.holder h)).stages
          = [SlotStage.productReadyStage, SlotStage.releaseStage] := by
        simp [Lane.makeTaskForDataProduct, Lane.makeWaiterTask, hw, TaskChain.stages]
      rw [hst]
      exact ⟨by decide, fun _ => ⟨by decide, fun hne => absurd hwl hne⟩⟩
  · cases u with
    | false =>
      have hst : (lane.makeTaskForDataProduct slot false (TaskChain.holder h)).stages
          = [SlotStage.waitStage, SlotStage.releaseStage] := by
        simp [Lane.makeTaskForDataProduct, Lane.makeWaiterTask, hw, TaskChain.stages]
      rw [hst]
      exact ⟨by decide, fun hft => nomatch hft⟩
    | true =>
      have hst : (lane.makeTaskForDataProduct slot true (TaskChain.holder h)).stages
          = [SlotStage.waitStage, SlotStage.productReadyStage,
             SlotStage.releaseStage] := by
        simp [Lane.makeTaskForDataProduct, Lane.makeWaiterTask, hw, TaskChain.stages]
      rw [hst]
      exact ⟨by decide, fun _ => ⟨by decide, fun _ => by decide⟩⟩

/-- Witness for C7: concrete instances of both implications. With the hook
enabled on a lane with a waiter, the product-ready stage is present, runs
before the release, and after the wait stage. -/
theorem productReady_hook_iff_and_order_witness :
    SlotStage.productReadyStage ∈
        ((Lane.init 0 1 1).makeTaskForDataProduct 0 true
          (TaskChain.holder ())).stages ∧
      ((Lane.init 0 1 1).makeTaskForDataProduct 0 true
            (TaskChain.holder ())).stages.indexOf SlotStage.waitStage <
        ((Lane.init 0 1 1).makeTaskForDataProduct 0 true
            (TaskChain.holder ())).stages.indexOf SlotStage.productReadyStage := by
  have h := productReady_hook_iff_and_order (Lane.init 0 1 1) 0 true ()
  refine ⟨h.1.mpr rfl, (h.2 rfl).2 ?_⟩
  simp [Lane.init]

/-! ### RNTupleOutputer (`src/RNTupleOutputer.cc`)

The outputer's observable state and its mutations are embedded directly from
the source. ROOT library calls (`RFieldBase::Create`, `RNTupleWriter`,
`REntry`) are external; field creation is abstracted by a success oracle
`createOk : name → typeName → Bool`, and the writer/entry by the recorded
model fields and bind actions. -/

/-- The `cce::tf::EventIdentifier` run/lumi/event triple. -/
structure EventIdentifier where
  run : Nat
  lumi : Nat
  event : Nat
deriving DecidableEq, Repr, Inhabited

/-- One data-product slot as the outputer sees it: logical name, ROOT class
type name, and the (stable) address of its storage location, modelled as an
abstract identifier. -/
structure DataProductRetriever where
  name : String
  classTypeName : String
  address : Nat
deriving DecidableEq, Repr

/-- Per-lane entry container (`RNTupleOutputer::EntryContainer`): the product
storage addresses pushed for that lane by `setupForLane`. -/
structure EntryContainer where
  ptrs : List Nat
deriving DecidableEq, Repr

/-- The empty entry container. -/
def EntryContainer.empty : EntryContainer := { ptrs := [] }

/-- The RNTuple model created on lane 0: the ordered created fields as
(name, ROOT type name) pairs. -/
structure RNTupleModelRep where
  fields : List (String × String)
deriving DecidableEq, Repr

/-- Observable state of an `RNTupleOutputer`: per-lane entries, the field
names (`fieldIDs_`), the created writer (`ntuple_`, `none` until lane 0's
setup), the shared `EventID` buffer (`id_`, `none` while the shared pointer
is null, otherwise the value it points to), and the output offset counter. -/
structure RNTupleOutputerState where
  fileName : String
  entries : List EntryContainer
  fieldIDs : List String
  ntuple : Option RNTupleModelRep
  id : Option EventIdentifier
  eventGlobalOffset : Nat
deriving DecidableEq, Repr

/-- From `src/RNTupleOutputer.cc` lines 13–19 (constructor): `entries_` has
one empty container per lane; everything else is empty/zero, `ntuple_` and
`id_` are null. -/
def RNTupleOutputerInit (fileName : String) (iNLanes : Nat) : RNTupleOutputerState :=
  { fileName := fileName
    entries := List.replicate iNLanes EntryContainer.empty
    fieldIDs := []
    ntuple := none
    id := none
    eventGlobalOffset := 0 }

/-- `dp.name().substr(0, dp.name().find("."))`: the name up to (excluding)
the first dot; the whole name when there is no dot
(`src/RNTupleOutputer.cc` line 33). -/
def chopName (s : String) : String := String.mk (s.data.takeWhile (fun c => c ≠ '.'))

/-- Errors `setupForLane` can raise: per-product field creation failure
(caught and rethrown as `runtime_error`, line 45), failure of the uncaught
`EventID` field creation (line 50, outside the try block), and the
setup-order violation (`logic_error("setupForLane should be sequential")`,
line 68). -/
inductive SetupError where
  | fieldCreationFailed : SetupError
  | uncaughtFieldError : SetupError
  | setupOrderViolation : SetupError
deriving DecidableEq, Repr

/-- The per-product field creation loop of lane 0's branch
(`src/RNTupleOutputer.cc` lines 28–47): for each data product, create a field
named by `chopName` with the product's class type; the first failure aborts
the whole call. Returns the created (name, type) pairs in product order. -/
def createFields (createOk : String → String → Bool) :
    List DataProductRetriever → Except SetupError (List (String × String))
  | [] => Except.ok []
  | dp :: rest =>
    let name := chopName dp.name
    if createOk name dp.classTypeName then
      match createFields createOk rest with
      | Except.ok fields => Except.ok ((name, dp.classTypeName) :: fields)
      | Except.error e => Except.error e
    else Except.error SetupError.fieldCreationFailed

/-- The trailing loop of `setupForLane` (`src/RNTupleOutputer.cc` lines
71–74): push each product's storage address onto this lane's entry
container. -/
def bindLaneEntries (entries : List EntryContainer) (lane : Nat)
    (addrs : List Nat) : List EntryContainer :=
  entries.set lane { ptrs := (entries.getD lane EntryContainer.empty).ptrs ++ addrs }

/-- From `src/RNTupleOutputer.cc` lines 21–75 (`RNTupleOutputer::setupForLane`).
Lane 0 creates one field per product (recording whether any product is named
exactly `"EventAuxiliary"`), appends an extra `"EventID"` field and allocates
`id_` when no product had that name, and creates the writer (`ntuple_`).
Any other lane first checks that `ntuple_` exists, throwing the
setup-order `logic_error` otherwise. Both paths then append each product's
address to this lane's entry container. -/
def setupForLane (createOk : String → String → Bool) (s : RNTupleOutputerState)
    (iLaneIndex : Nat) (iDPs : List DataProductRetriever) :
    Except SetupError RNTupleOutputerState :=
  if iLaneIndex = 0 then
    match createFields createOk iDPs with
    | Except.error e => Except.error e
    | Except.ok fields =>
      if iDPs.any (fun dp => dp.name == "EventAuxiliary") then
        Except.ok
          { s with
            fieldIDs := s.fieldIDs ++ fields.map Prod.fst
            ntuple := some { fields := fields }
            entries := bindLaneEntries s.entries iLaneIndex
              (iDPs.map DataProductRetriever.address) }
      else
        if createOk "EventID" "cce::tf::EventIdentifier" then
          Except.ok
            { s with
              fieldIDs := s.fieldIDs ++ fields.map Prod.fst ++ ["EventID"]
              id := some default
              ntuple := some
                { fields := fields ++ [("EventID", "cce::tf::EventIdentifier")] }
              entries := bindLaneEntries s.entries iLaneIndex
                (iDPs.map DataProductRetriever.address) }
        else Except.error SetupError.uncaughtFieldError
  else if s.ntuple = none then
    Except.error SetupError.setupOrderViolation
  else
    Except.ok
      { s with
        entries := bindLaneEntries s.entries iLaneIndex
          (iDPs.map DataProductRetriever.address) }

/-- From `src/RNTupleOutputer.cc` lines 77–78
(`RNTupleOutputer::productReadyAsync`): the body is empty and the member is
`const`, so the outputer state is untouched. -/
def productReadyAsyncState (s : RNTupleOutputerState) (iLaneIndex : Nat)
    (iDataProduct : DataProductRetriever) : RNTupleOutputerState := s

/-- Token operations a `productReadyAsync` call performs on its callback
holder: the empty body makes no copies and the by-value `iCallback` parameter
is destroyed exactly once when the call returns — a single release. -/
def productReadyAsyncCallbackOps : List TokOp := [TokOp.release]

/-- What a bind action points an RNTuple field at: a product's storage
(through the stored `void**`) or the shared `id_` buffer. -/
inductive BindTarget where
  | productPtr (addr : Nat) : BindTarget
  | idPtr : BindTarget
deriving DecidableEq, Repr

/-- One step of `collateProducts` on the created entry: binding a raw pointer
to a named field, or filling the entry into the ntuple. -/
inductive CollateAction where
  | bindField (name : String) (target : BindTarget) : CollateAction
  | fill : CollateAction
deriving DecidableEq, Repr

/-- From `src/RNTupleOutputer.cc` lines 103–125
(`RNTupleOutputer::collateProducts`): increments the output offset, binds
`fieldIDs_[i]` to `*entry.ptrs[i]` for each product slot, then — exactly when
`id_` is allocated — copies the event identifier into `*id_` and binds the
`"EventID"` field to the `id_` buffer, and finally fills the entry. Returns
the new state and the ordered actions performed on the entry. -/
def collateProducts (s : RNTupleOutputerState) (iEventID : EventIdentifier)
    (entry : EntryContainer) : RNTupleOutputerState × List CollateAction :=
  let binds := (List.range entry.ptrs.length).map
    (fun i => CollateAction.bindField (s.fieldIDs.getD i "")
      (BindTarget.productPtr (entry.ptrs.getD i 0)))
  match s.id with
  | some _ =>
    ({ s with id := some iEventID, eventGlobalOffset := s.eventGlobalOffset + 1 },
     binds ++ [CollateAction.bindField "EventID" BindTarget.idPtr, CollateAction.fill])
  | none =>
    ({ s with eventGlobalOffset := s.eventGlobalOffset + 1 },
     binds ++ [CollateAction.fill])

/-! ### Claim theorems C5, C8, C10 -/

/-- `createFields` can only fail with the caught-and-rethrown per-product
field creation error. -/
theorem createFields_error_eq (createOk : String → String → Bool) :
    ∀ (dps : List DataProductRetriever) (e : SetupError),
      createFields createOk dps = Except.error e →
      e = SetupError.fieldCreationFailed := by
  intro dps
  induction dps with
  | nil =>
    intro e h
    simp [createFields] at h
  | cons dp rest ih =>
    intro e h
    simp only [createFields] at h
    by_cases hc : createOk (chopName dp.name) dp.classTypeName
    · rw [if_pos hc] at h
      cases hcf : createFields createOk rest with
      | ok fields => rw [hcf] at h; exact Except.noConfusion h
      | error e2 =>
        rw [hcf] at h
        have he : e2 = e := Except.error.inj h
        exact he ▸ ih e2 hcf
    · rw [if_neg hc] at h
      exact (Except.error.inj h).symm

/-- Lane 0's branch of `setupForLane` never raises the setup-order error
(it can only fail with a field-creation error). -/
theorem setupForLane_zero_not_order (createOk : String → String → Bool)
    (s : RNTupleOutputerState) (iDPs : List DataProductRetriever) :
    setupForLane createOk s 0 iDPs ≠
      Except.error SetupError.setupOrderViolation := by
  intro h
  cases hcf : createFields createOk iDPs with
  | error e =>
    have he := createFields_error_eq createOk iDPs e hcf
    subst he
    simp [setupForLane, hcf] at h
  | ok fields =>
    by_cases hb : (iDPs.any (fun dp => dp.name == "EventAuxiliary")) = true
    · simp [setupForLane, hcf, hb] at h
    · by_cases he : createOk "EventID" "cce::tf::EventIdentifier" = true
      · simp [setupForLane, hcf, hb, he] at h
      · simp [setupForLane, hcf, hb, he] at h

/-- Claim C5: `setupForLane` raises the setup-order fatal error
(`logic_error("setupForLane should be sequential")`) if and only if the lane
index is nonzero and `ntuple_` has not been initialized; lane 0's call, and
any call finding `ntuple_` initialized, never raises it. -/
theorem setupForLane_order_error_iff (createOk : String → String → Bool)
    (s : RNTupleOutputerState) (iLaneIndex : Nat)
    (iDPs : List DataProductRetriever) :
    setupForLane createOk s iLaneIndex iDPs =
        Except.error SetupError.setupOrderViolation ↔
      iLaneIndex ≠ 0 ∧ s.ntuple = none := by
  constructor
  · intro h
    by_cases h0 : iLaneIndex = 0
    · exact absurd (h0 ▸ h) (setupForLane_zero_not_order createOk s iDPs)
    · refine ⟨h0, ?_⟩
      by_cases hn : s.ntuple = none
      · exact hn
      · exfalso
        simp only [setupForLane, if_neg h0, if_neg hn] at h
        exact Except.noConfusion h
  · rintro ⟨h0, hn⟩
    simp only [setupForLane, if_neg h0, if_pos hn]

/-- Claim C8: a `setupForLane` call from a nonzero lane `L`, with `ntuple_`
already initialized, succeeds and mutates only `entries_[L]` — appending the
storage address of each data product in slot order — leaving `ntuple_`,
`fieldIDs_`, `id_` and every other lane's entry container unchanged. -/
theorem setupForLane_nonzero_frame (createOk : String → String → Bool)
    (s : RNTupleOutputerState) (L : Nat) (iDPs : List DataProductRetriever)
    (hL : L ≠ 0) (hnt : s.ntuple ≠ none) (hlen : L < s.entries.length) :
    ∃ s', setupForLane createOk s L iDPs = Except.ok s' ∧
      s'.fileName = s.fileName ∧
      s'.fieldIDs = s.fieldIDs ∧
      s'.ntuple = s.ntuple ∧
      s'.id = s.id ∧
      s'.eventGlobalOffset = s.eventGlobalOffset ∧
      s'.entries[L]? = some { ptrs := ((s.entries.getD L EntryContainer.empty).ptrs
        ++ iDPs.map DataProductRetriever.address) } ∧
      ∀ j, j ≠ L → s'.entries[j]? = s.entries[j]? := by
  refine ⟨{ s with entries := (bindLaneEntries s.entries L
      (iDPs.map DataProductRetriever.address)) },
    ?_, rfl, rfl, rfl, rfl, rfl, ?_, ?_⟩
  · simp only [setupForLane, if_neg hL, if_neg hnt]
  · simp only [bindLaneEntries]
    exact List.getElem?_set_eq_of_lt _ hlen
  · intro j hj
    simp only [bindLaneEntries]
    exact List.getElem?_set_ne (fun he => hj he.symm)

/-- A concrete two-lane outputer state with `ntuple_` initialized, used by
the C8 witness. -/
def c8State : RNTupleOutputerState :=
  { fileName := "f"
    entries := [EntryContainer.empty, EntryContainer.empty]
    fieldIDs := ["a"]
    ntuple := some { fields := [("a", "T")] }
    id := none
    eventGlobalOffset := 0 }

/-- A concrete one-product slot list, used by the C8 witness. -/
def c8DPs : List DataProductRetriever :=
  [{ name := "a", classTypeName := "T", address := 7 }]

/-- Witness for C8 at a concrete state: lane 1 of a two-lane outputer with
`ntuple_` initialized binds its own entry and leaves lane 0's entry and the
shared state unchanged. -/
theorem setupForLane_nonzero_frame_witness :
    ∃ s', setupForLane (fun _ _ => true) c8State 1 c8DPs = Except.ok s' ∧
      s'.fileName = c8State.fileName ∧
      s'.fieldIDs = c8State.fieldIDs ∧
      s'.ntuple = c8State.ntuple ∧
      s'.id = c8State.id ∧
      s'.eventGlobalOffset = c8State.eventGlobalOffset ∧
      s'.entries[1]? = some { ptrs := ((c8State.entries.getD 1 EntryContainer.empty).ptrs
        ++ c8DPs.map DataProductRetriever.address) } ∧
      ∀ j, j ≠ 1 → s'.entries[j]? = c8State.entries[j]? :=
  setupForLane_nonzero_frame (fun _ _ => true) c8State 1 c8DPs
    (by decide) (by decide) (by decide)

/-- A successful `createFields` run creates exactly one field per data
product, in product order, named by `chopName` with the product's class
type. -/
theorem createFields_ok_eq (createOk : String → String → Bool) :
    ∀ (dps : List DataProductRetriever) (fields : List (String × String)),
      createFields createOk dps = Except.ok fields →
      fields = dps.map (fun dp => (chopName dp.name, dp.classTypeName)) := by
  intro dps
  induction dps with
  | nil =>
    intro fields h
    simp only [createFields] at h
    simp [← Except.ok.inj h]
  | cons dp rest ih =>
    intro fields h
    simp only [createFields] at h
    by_cases hc : createOk (chopName dp.name) dp.classTypeName
    · rw [if_pos hc] at h
      cases hcf : createFields createOk rest with
      | error e => rw [hcf] at h; exact Except.noConfusion h
      | ok fs =>
        rw [hcf] at h
        have he : (chopName dp.name, dp.classTypeName) :: fs = fields :=
          Except.ok.inj h
        rw [← he, List.map_cons, ih fs hcf]
    · rw [if_neg hc] at h
      exact Except.noConfusion h

/-- Claim C9: in lane 0's `setupForLane` call (starting from the
constructor's state: `id_` null, `fieldIDs_` empty), the extra `"EventID"`
field is appended after the per-product fields — with `id_` allocated — if
and only if no data product is named exactly `"EventAuxiliary"`; and exactly
when `id_` is allocated, every `collateProducts` execution copies the event
identifier into `*id_` and binds the `"EventID"` field immediately before
filling the entry, while with `id_` unallocated no `"EventID"` binding is
performed. -/
theorem eventID_field_and_collate (createOk : String → String → Bool)
    (s s' : RNTupleOutputerState) (iDPs : List DataProductRetriever)
    (hid : s.id = none) (hfds : s.fieldIDs = [])
    (hok : setupForLane createOk s 0 iDPs = Except.ok s')
    (eid : EventIdentifier) (entry : EntryContainer) :
    ((s'.id.isSome = true ∧
        s'.fieldIDs = iDPs.map (fun dp => chopName dp.name) ++ ["EventID"]) ↔
      (iDPs.any (fun dp => dp.name == "EventAuxiliary")) = false) ∧
    (s'.id.isSome = true →
      (collateProducts s' eid entry).1.id = some eid ∧
      ∃ pre, (collateProducts s' eid entry).2 =
        pre ++ [CollateAction.bindField "EventID" BindTarget.idPtr,
                CollateAction.fill]) ∧
    (s'.id = none →
      CollateAction.bindField "EventID" BindTarget.idPtr ∉
        (collateProducts s' eid entry).2) := by
  refine ⟨?_, ?_, ?_⟩
  · cases hcf : createFields createOk iDPs with
    | error e => simp [setupForLane, hcf] at hok
    | ok fields =>
      by_cases hb : (iDPs.any (fun dp => dp.name == "EventAuxiliary")) = true
      · simp only [setupForLane, if_pos rfl, hcf, if_pos hb] at hok
        have hs' := Except.ok.inj hok
        rw [← hs']
        simp [hid, hb]
      · by_cases hce : createOk "EventID" "cce::tf::EventIdentifier" = true
        · simp only [setupForLane, if_pos rfl, hcf, if_neg hb, if_pos hce] at hok
          have hs' := Except.ok.inj hok
          rw [← hs']
          have hf := createFields_ok_eq createOk iDPs fields hcf
          simp only [Bool.not_eq_true] at hb
          simp [hfds, hf, hb, List.map_map, Function.comp]
        · simp [setupForLane, hcf, hb, hce] at hok
  · intro hsome
    cases hS : s'.id with
    | none => rw [hS] at hsome; exact Bool.noConfusion hsome
    | some v =>
      refine ⟨?_, ?_⟩
      · simp [collateProducts, hS]
      · refine ⟨(List.range entry.ptrs.length).map
          (fun i => CollateAction.bindField (s'.fieldIDs.getD i "")
            (BindTarget.productPtr (entry.ptrs.getD i 0))), ?_⟩
        simp [collateProducts, hS]
  · intro hnone
    simp [collateProducts, hnone]

/-- The slot list used by the C9 witness: one product, not named
`EventAuxiliary`. -/
def c9DPs : List DataProductRetriever :=
  [{ name := "hits", classTypeName := "T", address := 5 }]

/-- The state lane 0's setup produces from the constructor state on `c9DPs`
(used by the C9 witness). -/
def c9Result : RNTupleOutputerState :=
  { fileName := "f"
    entries := [{ ptrs := [5] }]
    fieldIDs := ["hits", "EventID"]
    ntuple := some { fields := [("hits", "T"), ("EventID", "cce::tf::EventIdentifier")] }
    id := some default
    eventGlobalOffset := 0 }

/-- Witness for C9: on a fresh one-lane outputer with a single product named
`"hits"`, lane 0's setup allocates `id_` and appends the `"EventID"` field,
and a collate execution copies the event identifier into `*id_`. -/
theorem eventID_field_and_collate_witness :
    (c9Result.id.isSome = true ∧
      c9Result.fieldIDs = c9DPs.map (fun dp => chopName dp.name) ++ ["EventID"]) ∧
    (collateProducts c9Result { run := 1, lumi := 2, event := 3 }
        { ptrs := [5] }).1.id = some { run := 1, lumi := 2, event := 3 } := by
  have h := eventID_field_and_collate (fun _ _ => true)
    (RNTupleOutputerInit "f" 1) c9Result c9DPs (by decide) (by decide)
    rfl { run := 1, lumi := 2, event := 3 } { ptrs := [5] }
  exact ⟨h.1.mpr (by decide), (h.2.1 (by decide)).1⟩

/-- Claim C10: `productReadyAsync` mutates no outputer state and its only
effect on the callback holder is the single release performed when the
by-value parameter is destroyed on return: no clones, exactly one release,
and on a callback whose only live copy is the parameter the continuation
fires exactly once. -/
theorem productReadyAsync_is_pure_release (s : RNTupleOutputerState)
    (iLaneIndex : Nat) (iDataProduct : DataProductRetriever) :
    productReadyAsyncState s iLaneIndex iDataProduct = s ∧
      countClones productReadyAsyncCallbackOps = 0 ∧
      countReleases productReadyAsyncCallbackOps = 1 ∧
      runTok (1, 0) productReadyAsyncCallbackOps = (0, 1) :=
  ⟨rfl, rfl, rfl, rfl⟩

/-! ### Global event counter and lane claiming (`src/Lane.cc`,
`Lane::doNextEvent`)

`doNextEvent` claims `presentIndex = index++` on the shared
`std::atomic<long>` and, for a source bounded at `M` events,
`mayBeAbleToGoToEvent(presentIndex)` succeeds iff `presentIndex < M`; on
failure the lane's loop stops (no further recursion). The interleaving of
lanes is modelled by a step relation that lets any still-active lane perform
one atomic claim. -/

/-- One lane's claiming history: the event indices it successfully claimed
and whether its loop has terminated. -/
structure LaneClaim where
  claimed : List Nat
  done : Bool
deriving DecidableEq, Repr

/-- Shared state of `n` lanes claiming from one global atomic counter. -/
structure ClaimState (n : Nat) where
  counter : Nat
  lanes : Fin n → LaneClaim

/-- All lanes start active with nothing claimed; the counter starts at 0. -/
def initClaimState (n : Nat) : ClaimState n :=
  { counter := 0, lanes := fun _ => { claimed := [], done := false } }

/-- From `src/Lane.cc` lines 68–84 (`Lane::doNextEvent`): an active lane
atomically performs `presentIndex = index++`; if `presentIndex < M` (the
bounded source's `mayBeAbleToGoToEvent`) it records the claimed index and
keeps running, otherwise its loop terminates. A terminated lane takes no
further steps. -/
def claimStep (M : Nat) {n : Nat} (s : ClaimState n) (i : Fin n) :
    Option (ClaimState n) :=
  if (s.lanes i).done then none
  else if s.counter < M then
    some { counter := s.counter + 1
           lanes := Function.update s.lanes i
             { claimed := (s.lanes i).claimed ++ [s.counter], done := false } }
  else
    some { counter := s.counter + 1
           lanes := Function.update s.lanes i
             { claimed := (s.lanes i).claimed, done := true } }

/-- Interleaved executions: any sequence of claim steps by arbitrary
lanes. -/
inductive ClaimReach (M : Nat) {n : Nat} : ClaimState n → ClaimState n → Prop where
  | refl (s : ClaimState n) : ClaimReach M s s
  | tail {a b c : ClaimState n} {i : Fin n} :
      ClaimReach M a b → claimStep M b i = some c → ClaimReach M a c

/-- The multiset of all event indices claimed across the lanes. -/
def totalClaims {n : Nat} (s : ClaimState n) : Multiset Nat :=
  ∑ i : Fin n, ((s.lanes i).claimed : Multiset Nat)

/-- Number of terminated lanes. -/
def doneCount {n : Nat} (s : ClaimState n) : Nat :=
  ∑ i : Fin n, (if (s.lanes i).done then 1 else 0)

/-- Inductive invariant of the claiming machine: the claimed multiset is
exactly the sub-`M` part of the dispensed counter values, and terminated
lanes correspond one-to-one to the dispensed values `≥ M`. -/
def ClaimInv (M : Nat) {n : Nat} (s : ClaimState n) : Prop :=
  totalClaims s = (Multiset.range s.counter).filter (fun x => x < M) ∧
  doneCount s = s.counter - M ∧
  s.counter ≤ M + doneCount s

theorem claimInv_init (M n : Nat) : ClaimInv M (initClaimState n) := by
  refine ⟨?_, ?_, ?_⟩
  · simp [totalClaims, initClaimState, Multiset.range_zero]
  · simp [doneCount, initClaimState]
  · simp [doneCount, initClaimState]

/-- Updating one lane's record splits the claimed-multiset sum into the new
record's contribution plus the untouched lanes' contributions. -/
theorem sum_update_claims {n : Nat} (f : Fin n → LaneClaim) (i : Fin n)
    (b : LaneClaim) :
    (∑ x : Fin n, ((Function.update f i b x).claimed : Multiset Nat)) =
      (b.claimed : Multiset Nat) +
        ∑ x ∈ Finset.univ \ {i}, ((f x).claimed : Multiset Nat) := by
  rw [Finset.sum_congr rfl (fun x _ => Function.apply_update
    (fun _ lc => ((lc.claimed : Multiset Nat))) f i b x)]
  exact Finset.sum_update_of_mem (Finset.mem_univ i) _ _

/-- Updating one lane's record splits the done-count sum likewise. -/
theorem sum_update_done {n : Nat} (f : Fin n → LaneClaim) (i : Fin n)
    (b : LaneClaim) :
    (∑ x : Fin n, if (Function.update f i b x).done then (1 : Nat) else 0) =
      (if b.done then (1 : Nat) else 0) +
        ∑ x ∈ Finset.univ \ {i}, if (f x).done then (1 : Nat) else 0 := by
  rw [Finset.sum_congr rfl (fun x _ => Function.apply_update
    (fun _ lc => (if lc.done then (1 : Nat) else 0)) f i b x)]
  exact Finset.sum_update_of_mem (Finset.mem_univ i) _ _

theorem claimStep_inv {M n : Nat} {s s' : ClaimState n} {i : Fin n}
    (h : claimStep M s i = some s') (hinv : ClaimInv M s) : ClaimInv M s' := by
  obtain ⟨hmul, hdc, hub⟩ := hinv
  have hsum : totalClaims s =
      ((s.lanes i).claimed : Multiset Nat) +
        ∑ x ∈ Finset.univ \ {i}, ((s.lanes x).claimed : Multiset Nat) := by
    rw [← Finset.erase_eq]
    exact (Finset.add_sum_erase _ _ (Finset.mem_univ i)).symm
  have hdsum : doneCount s =
      (if (s.lanes i).done then (1 : Nat) else 0) +
        ∑ x ∈ Finset.univ \ {i}, (if (s.lanes x).done then (1 : Nat) else 0) := by
    rw [← Finset.erase_eq]
    exact (Finset.add_sum_erase _ _ (Finset.mem_univ i)).symm
  unfold claimStep at h
  by_cases hd : (s.lanes i).done = true
  · rw [if_pos hd] at h
    exact Option.noConfusion h
  · rw [if_neg hd] at h
    rw [if_neg hd, zero_add] at hdsum
    by_cases hlt : s.counter < M
    · rw [if_pos hlt] at h
      have hs' := Option.some.inj h
      subst hs'
      refine ⟨?_, ?_, ?_⟩
      · show (∑ x : Fin n, ((Function.update s.lanes i
            { claimed := (s.lanes i).claimed ++ [s.counter], done := false }
            x).claimed : Multiset Nat)) =
          Multiset.filter (fun x => x < M) (Multiset.range (s.counter + 1))
        rw [sum_update_claims]
        rw [Multiset.range_succ, Multiset.filter_cons, if_pos hlt, ← hmul, hsum]
        dsimp only
        rw [← Multiset.coe_add, Multiset.coe_singleton]
        abel
      · show (∑ x : Fin n, if (Function.update s.lanes i
            { claimed := (s.lanes i).claimed ++ [s.counter], done := false }
            x).done then (1 : Nat) else 0) = s.counter + 1 - M
        rw [sum_update_done]
        dsimp only
        rw [if_neg (Bool.false_ne_true), zero_add]
        omega
      · show s.counter + 1 ≤ M + ∑ x : Fin n, if (Function.update s.lanes i
            { claimed := (s.lanes i).claimed ++ [s.counter], done := false }
            x).done then (1 : Nat) else 0
        rw [sum_update_done]
        dsimp only
        rw [if_neg (Bool.false_ne_true), zero_add]
        omega
    · rw [if_neg hlt] at h
      have hs' := Option.some.inj h
      subst hs'
      refine ⟨?_, ?_, ?_⟩
      · show (∑ x : Fin n, ((Function.update s.lanes i
            { claimed := (s.lanes i).claimed, done := true }
            x).claimed : Multiset Nat)) =
          Multiset.filter (fun x => x < M) (Multiset.range (s.counter + 1))
        rw [sum_update_claims]
        rw [Multiset.range_succ, Multiset.filter_cons, if_neg hlt, ← hmul, hsum]
        dsimp only
        rw [zero_add]
      · show (∑ x : Fin n, if (Function.update s.lanes i
            { claimed := (s.lanes i).claimed, done := true }
            x).done then (1 : Nat) else 0) = s.counter + 1 - M
        rw [sum_update_done]
        dsimp only
        rw [if_pos rfl]
        omega
      · show s.counter + 1 ≤ M + ∑ x : Fin n, if (Function.update s.lanes i
            { claimed := (s.lanes i).claimed, done := true }
            x).done then (1 : Nat) else 0
        rw [sum_update_done]
        dsimp only
        rw [if_pos rfl]
        omega

theorem claimReach_inv {M n : Nat} {s : ClaimState n}
    (h : ClaimReach M (initClaimState n) s) : ClaimInv M s := by
  induction h with
  | refl => exact claimInv_init M n
  | tail _ hstep ih => exact claimStep_inv hstep ih

/-- All naturals below `M` survive the filter; those from `M` on are
dropped. -/
theorem filter_range_add (M k : Nat) :
    (Multiset.range (M + k)).filter (fun x => x < M) = Multiset.range M := by
  induction k with
  | zero =>
    exact Multiset.filter_eq_self.mpr (fun x hx => Multiset.mem_range.mp hx)
  | succ k ih =>
    rw [show M + (k + 1) = (M + k) + 1 from rfl, Multiset.range_succ,
      Multiset.filter_cons, if_neg (Nat.not_lt.mpr (Nat.le_add_right M k)), ih]
    simp

/-- Claim C3: when `N ≥ 1` lanes run `Lane::doNextEvent` until exhaustion
against a source bounded at `M` events, the multiset of event indices
claimed from the shared atomic counter has no duplicates and equals exactly
`{0, …, M-1}` — in any interleaving. -/
theorem claimed_indices_exactly_range (M n : Nat) (hn : 0 < n)
    (s : ClaimState n) (hreach : ClaimReach M (initClaimState n) s)
    (hdone : ∀ i, (s.lanes i).done = true) :
    totalClaims s = Multiset.range M ∧ (totalClaims s).Nodup := by
  obtain ⟨hmul, hdc, hub⟩ := claimReach_inv hreach
  have hdcn : doneCount s = n := by
    unfold doneCount
    rw [Finset.sum_congr rfl (fun i _ => if_pos (hdone i))]
    simp
  rw [hdcn] at hdc hub
  have hcounter : s.counter = M + n := by omega
  rw [hmul, hcounter, filter_range_add]
  exact ⟨rfl, Multiset.nodup_range M⟩

/-- The C3 witness execution: one lane, source bounded at one event. -/
def c3s0 : ClaimState 1 := initClaimState 1

/-- After the lane claims event 0. -/
def c3s1 : ClaimState 1 :=
  { counter := 1
    lanes := Function.update c3s0.lanes 0 { claimed := [0], done := false } }

/-- After the lane draws counter value 1 ≥ M and terminates. -/
def c3s2 : ClaimState 1 :=
  { counter := 2
    lanes := Function.update c3s1.lanes 0 { claimed := [0], done := true } }

/-- Witness for C3: in the concrete run of one lane against a source bounded
at 1 event, the claimed multiset is exactly `{0}`, without duplicates. -/
theorem claimed_indices_exactly_range_witness :
    totalClaims c3s2 = Multiset.range 1 ∧ (totalClaims c3s2).Nodup :=
  claimed_indices_exactly_range 1 1 (by decide) c3s2
    (ClaimReach.tail
      (ClaimReach.tail (ClaimReach.refl c3s0)
        (show claimStep 1 c3s0 0 = some c3s1 from rfl))
      (show claimStep 1 c3s1 0 = some c3s2 from rfl))
    (fun i => by fin_cases i <;> rfl)

/-! ### Recursion versus output: the life of one event in a lane

From `src/Lane.cc` lines 68–84 (`Lane::doNextEvent`) and
`src/RNTupleOutputer.cc` lines 80–88, 103–125: the seek continuation creates
`recursiveTask` (a holder whose continuation re-runs `doNextEvent`) and hands
it to `processEventAsync` as the completion callback. That callback is moved
into the outer holder's continuation, which — when the join fires — calls
`outputer.outputAsync(..., std::move(callback))`; `outputAsync` moves the
callback into the lambda pushed onto `collateQueue_`, and that lambda passes
it by value into `collateProducts`, whose return destroys it. So the single
hold on `recursiveTask` is released only when `collateProducts` returns.
The machine below makes each hand-off a schedulable task and lets a
nondeterministic scheduler pick any pending task; `TaskHolder` release
semantics are modelled from the spec (§4.1). -/

/-- Observable events on one lane: the collate step for the current event
completed (`collateProducts` returned, entry filled), and the recursive
`doNextEvent` ran (the next event index was claimed from the counter). -/
inductive LaneEv where
  | collateDone : LaneEv
  | claimNext : LaneEv
deriving DecidableEq, Repr

/-- Schedulable tasks in the life of one event with `k` data-product slots:
`issue k` is the body of `processEventAsync` (spawns the slot fetches,
base-releases the outer holder on return); `fetch i` is slot `i`'s branch
completing (releasing its outer hold); `outerFire` is the outer holder's
continuation (calls `outputAsync`, which pushes the collate operation);
`collateRun` is the queued collate operation (`collateProducts` runs, then
its by-value callback parameter is destroyed, releasing `recursiveTask`);
`recurse` is `recursiveTask`'s continuation (`doNextEvent` claims the next
index). -/
inductive PTask where
  | issue (k : Nat) : PTask
  | fetch (i : Nat) : PTask
  | outerFire : PTask
  | collateRun : PTask
  | recurse : PTask
deriving DecidableEq, Repr

/-- Scheduler state: the pending task pool, the outer holder's live hold
count, and the trace of observable events. -/
structure PState where
  pending : List PTask
  outerCount : Nat
  trace : List LaneEv
deriving DecidableEq, Repr

/-- Effect of running one task (faithful to the hand-offs described above). -/
def runTask (s : PState) (t : PTask) : PState :=
  match t with
  | PTask.issue k =>
    { s with outerCount := k
             pending := s.pending ++
               (if k = 0 then [PTask.outerFire] else (List.range k).map PTask.fetch) }
  | PTask.fetch _ =>
    if s.outerCount = 1 then
      { s with outerCount := 0, pending := s.pending ++ [PTask.outerFire] }
    else
      { s with outerCount := s.outerCount - 1 }
  | PTask.outerFire => { s with pending := s.pending ++ [PTask.collateRun] }
  | PTask.collateRun =>
    { s with trace := s.trace ++ [LaneEv.collateDone]
             pending := s.pending ++ [PTask.recurse] }
  | PTask.recurse => { s with trace := s.trace ++ [LaneEv.claimNext] }

/-- The scheduler nondeterministically runs the pending task at position
`j`. -/
def stepAt (s : PState) (j : Nat) : Option PState :=
  match s.pending[j]? with
  | none => none
  | some t => some (runTask { s with pending := s.pending.eraseIdx j } t)

/-- Start of one event's processing: the `processEventAsync` body is about to
run (just after the seek continuation built `recursiveTask`). -/
def initPState (k : Nat) : PState :=
  { pending := [PTask.issue k], outerCount := 0, trace := [] }

/-- All interleavings of the scheduler. -/
inductive PReach : PState → PState → Prop where
  | refl (s : PState) : PReach s s
  | tail {a b c : PState} {j : Nat} :
      PReach a b → stepAt b j = some c → PReach a c

/-- Inductive invariant: the recursive claim can only be pending — and the
next index can only have been claimed — once the collate step has completed,
and in the trace the collate completion sits strictly before the claim. -/
def CollateBeforeClaim (s : PState) : Prop :=
  ((PTask.recurse ∈ s.pending ∨ LaneEv.claimNext ∈ s.trace) →
    LaneEv.collateDone ∈ s.trace) ∧
  (LaneEv.claimNext ∈ s.trace →
    s.trace.indexOf LaneEv.collateDone < s.trace.indexOf LaneEv.claimNext)

theorem collateBeforeClaim_init (k : Nat) : CollateBeforeClaim (initPState k) := by
  constructor
  · intro h
    rcases h with h | h
    · simp [initPState] at h
    · simp [initPState] at h
  · intro h
    simp [initPState] at h

theorem collateBeforeClaim_step {s s' : PState} {j : Nat}
    (h : stepAt s j = some s') (hinv : CollateBeforeClaim s) :
    CollateBeforeClaim s' := by
  obtain ⟨h1, h2⟩ := hinv
  unfold stepAt at h
  cases hj : s.pending[j]? with
  | none => rw [hj] at h; exact Option.noConfusion h
  | some t =>
    rw [hj] at h
    have hs' := Option.some.inj h
    subst hs'
    have hmem : t ∈ s.pending := List.getElem?_mem hj
    have herase : ∀ u : PTask, u ∈ s.pending.eraseIdx j → u ∈ s.pending :=
      fun u hu => List.mem_of_mem_eraseIdx hu
    cases t with
    | issue k =>
      constructor
      · intro hr
        rcases hr with hr | hr
        · simp only [runTask, List.mem_append] at hr
          rcases hr with hr | hr
          · exact h1 (Or.inl (herase _ hr))
          · exfalso
            by_cases hk : k = 0
            · rw [if_pos hk] at hr
              simp at hr
            · rw [if_neg hk] at hr
              simp only [List.mem_map] at hr
              obtain ⟨i, _, hbad⟩ := hr
              exact PTask.noConfusion hbad
        · exact h1 (Or.inr hr)
      · exact h2
    | fetch i =>
      by_cases hc : s.outerCount = 1
      · have hs : runTask { s with pending := s.pending.eraseIdx j }
            (PTask.fetch i) =
            { pending := s.pending.eraseIdx j ++ [PTask.outerFire]
              outerCount := 0, trace := s.trace } := by
          simp [runTask, hc]
        rw [hs]
        constructor
        · intro hr
          rcases hr with hr | hr
          · rcases List.mem_append.mp hr with hr | hr
            · exact h1 (Or.inl (herase _ hr))
            · simp at hr
          · exact h1 (Or.inr hr)
        · exact h2
      · have hs : runTask { s with pending := s.pending.eraseIdx j }
            (PTask.fetch i) =
            { pending := s.pending.eraseIdx j
              outerCount := s.outerCount - 1, trace := s.trace } := by
          simp [runTask, hc]
        rw [hs]
        constructor
        · intro hr
          rcases hr with hr | hr
          · exact h1 (Or.inl (herase _ hr))
          · exact h1 (Or.inr hr)
        · exact h2
    | outerFire =>
      constructor
      · intro hr
        rcases hr with hr | hr
        · simp only [runTask, List.mem_append] at hr
          rcases hr with hr | hr
          · exact h1 (Or.inl (herase _ hr))
          · simp at hr
        · exact h1 (Or.inr hr)
      · exact h2
    | collateRun =>
      constructor
      · intro _
        simp [runTask]
      · intro hcl
        simp only [runTask] at hcl ⊢
        have hclmem : LaneEv.claimNext ∈ s.trace := by
          rcases List.mem_append.mp hcl with hcl | hcl
          · exact hcl
          · simp at hcl
        have hcd : LaneEv.collateDone ∈ s.trace := h1 (Or.inr hclmem)
        rw [List.indexOf_append_of_mem hcd, List.indexOf_append_of_mem hclmem]
        exact h2 hclmem
    | recurse =>
      have hcd : LaneEv.collateDone ∈ s.trace :=
        h1 (Or.inl hmem)
      constructor
      · intro _
        simp only [runTask, List.mem_append]
        exact Or.inl hcd
      · intro _
        simp only [runTask]
        by_cases hcl : LaneEv.claimNext ∈ s.trace
        · rw [List.indexOf_append_of_mem hcd, List.indexOf_append_of_mem hcl]
          exact h2 hcl
        · rw [List.indexOf_append_of_mem hcd, List.indexOf_append_of_not_mem hcl]
          have := List.indexOf_lt_length.mpr hcd
          omega

theorem pReach_inv {k : Nat} {s : PState} (h : PReach (initPState k) s) :
    CollateBeforeClaim s := by
  induction h with
  | refl => exact collateBeforeClaim_init k
  | tail _ hstep ih => exact collateBeforeClaim_step hstep ih

/-- Counterexample to C2 as stated, at the concrete fan-out width `K = 0`:
there is NO reachable state in which the next event has been claimed while
the current event's collate (output) step has not yet completed — the
recursive claim always waits for the output step, contradicting the claim
that it is triggered in parallel with (not after) it. -/
theorem claimNext_never_precedes_collate :
    ¬ ∃ s : PState, PReach (initPState 0) s ∧
        LaneEv.claimNext ∈ s.trace ∧ LaneEv.collateDone ∉ s.trace := by
  rintro ⟨s, hreach, hclaim, hnc⟩
  exact hnc ((pReach_inv hreach).1 (Or.inr hclaim))

/-- Claim C2 (amended): for every fan-out width and every scheduler
interleaving, the recursive re-entry into claiming the next event index runs
only after the current event's output step (`collateProducts`) has completed:
whenever the next index has been claimed, the collate completion is strictly
earlier in the trace. -/
theorem claimNext_only_after_collate (k : Nat) (s : PState)
    (hreach : PReach (initPState k) s)
    (hclaim : LaneEv.claimNext ∈ s.trace) :
    LaneEv.collateDone ∈ s.trace ∧
      s.trace.indexOf LaneEv.collateDone < s.trace.indexOf LaneEv.claimNext :=
  ⟨(pReach_inv hreach).1 (Or.inr hclaim), (pReach_inv hreach).2 hclaim⟩

/-- The four successive states of the only schedule at width 0 (C2
witness). -/
def c2s1 : PState := { pending := [PTask.outerFire], outerCount := 0, trace := [] }

/-- After the outer continuation pushed the collate operation. -/
def c2s2 : PState := { pending := [PTask.collateRun], outerCount := 0, trace := [] }

/-- After the collate operation ran (entry filled, callback released). -/
def c2s3 : PState :=
  { pending := [PTask.recurse], outerCount := 0, trace := [LaneEv.collateDone] }

/-- After the recursive task claimed the next index. -/
def c2s4 : PState :=
  { pending := [], outerCount := 0
    trace := [LaneEv.collateDone, LaneEv.claimNext] }

/-- Witness for the amended C2: in the concrete width-0 run, the claim of the
next index happens, and the collate completion precedes it in the trace. -/
theorem claimNext_only_after_collate_witness :
    LaneEv.collateDone ∈ c2s4.trace ∧
      c2s4.trace.indexOf LaneEv.collateDone <
        c2s4.trace.indexOf LaneEv.claimNext :=
  claimNext_only_after_collate 0 c2s4
    (PReach.tail (PReach.tail (PReach.tail (PReach.tail
      (PReach.refl (initPState 0))
      (show stepAt (initPState 0) 0 = some c2s1 from rfl))
      (show stepAt c2s1 0 = some c2s2 from rfl))
      (show stepAt c2s2 0 = some c2s3 from rfl))
      (show stepAt c2s3 0 = some c2s4 from rfl))
    (by decide)

/-! ### Collate funnel serialization

From `src/RNTupleOutputer.cc` lines 80–88 (`outputAsync`): every output
request, from any lane, is pushed onto the single `collateQueue_` as a
deferred operation that runs `collateProducts`. The queue itself
(`SerialTaskQueue`) lives in a header outside `src/`; its semantics are
modelled from the spec (§4.5 CollateFunnel / §3 CollateFunnel entry):
operations enqueued concurrently execute one at a time — a new operation can
only start when none is running. -/

/-- Timeline events of collate executions: operation `id` started /
completed its `collateProducts` run. -/
inductive QEv where
  | begin (id : Nat) : QEv
  | finish (id : Nat) : QEv
deriving DecidableEq, Repr

/-- The funnel's state: the queued operation ids in queue order, the
operation currently executing (if any), the id for the next push, and the
begin/finish timeline. -/
structure FunnelState where
  queued : List Nat
  running : Option Nat
  nextId : Nat
  trace : List QEv
deriving DecidableEq, Repr

/-- Empty funnel (constructor state). -/
def initFunnel : FunnelState :=
  { queued := [], running := none, nextId := 0, trace := [] }

/-- Funnel transitions. `push` is `RNTupleOutputer::outputAsync` enqueueing
one collate operation (`collateQueue_.push(*group, …collateProducts…)`,
lines 83–85) — allowed at any time, from any lane. `start` (spec-modelled:
serialized execution) dequeues the head operation only when none is running.
`finish` completes the running operation. -/
inductive FunnelStep : FunnelState → FunnelState → Prop where
  | push (s : FunnelState) :
      FunnelStep s { s with queued := s.queued ++ [s.nextId]
                            nextId := s.nextId + 1 }
  | start (s : FunnelState) (t : Nat) (rest : List Nat) :
      s.running = none → s.queued = t :: rest →
      FunnelStep s { s with queued := rest, running := some t
                            trace := s.trace ++ [QEv.begin t] }
  | finish (s : FunnelState) (t : Nat) :
      s.running = some t →
      FunnelStep s { s with running := none
                            trace := s.trace ++ [QEv.finish t] }

/-- All interleavings of pushes (from any number of lanes) and serialized
executions. -/
inductive FunnelReach : FunnelState → FunnelState → Prop where
  | refl (s : FunnelState) : FunnelReach s s
  | tail {a b c : FunnelState} :
      FunnelReach a b → FunnelStep b c → FunnelReach a c

/-- Number of collate executions started in a timeline. -/
def beginCount (tr : List QEv) : Nat :=
  tr.countP (fun e => match e with | QEv.begin _ => true | QEv.finish _ => false)

/-- Number of collate executions completed in a timeline. -/
def finishCount (tr : List QEv) : Nat :=
  tr.countP (fun e => match e with | QEv.begin _ => false | QEv.finish _ => true)

/-- Inductive invariant: starts exceed completions exactly by the running
operation (one when an operation is executing, zero otherwise). -/
def FunnelInv (s : FunnelState) : Prop :=
  beginCount s.trace = finishCount s.trace +
    (if s.running.isSome then 1 else 0)

theorem funnelInv_init : FunnelInv initFunnel := by
  simp [FunnelInv, initFunnel, beginCount, finishCount]

theorem funnelInv_step {s s' : FunnelState} (h : FunnelStep s s')
    (hinv : FunnelInv s) : FunnelInv s' := by
  cases h with
  | push =>
    exact hinv
  | start t rest hrun hq =>
    show beginCount (s.trace ++ [QEv.begin t]) =
      finishCount (s.trace ++ [QEv.begin t]) + _
    unfold FunnelInv at hinv
    unfold beginCount finishCount at hinv ⊢
    rw [List.countP_append, List.countP_append]
    rw [hrun] at hinv
    simp only [Option.isSome_none, Bool.false_eq_true, if_false] at hinv
    simp [List.countP_cons, hinv]
  | finish t hrun =>
    show beginCount (s.trace ++ [QEv.finish t]) =
      finishCount (s.trace ++ [QEv.finish t]) + _
    unfold FunnelInv at hinv
    unfold beginCount finishCount at hinv ⊢
    rw [List.countP_append, List.countP_append]
    rw [hrun] at hinv
    simp only [Option.isSome_some, if_pos rfl] at hinv
    simp [List.countP_cons, hinv]

theorem funnelReach_inv {s : FunnelState} (h : FunnelReach initFunnel s) :
    FunnelInv s := by
  induction h with
  | refl => exact funnelInv_init
  | tail _ hstep ih => exact funnelInv_step hstep ih

/-- A list prefix of a list with one element appended is either a prefix of
the original list or the whole appended list. -/
theorem prefix_snoc {α : Type} (p l : List α) (e : α) (hp : p <+: l ++ [e]) :
    p <+: l ∨ p = l ++ [e] := by
  by_cases hl : p.length ≤ l.length
  · exact Or.inl (List.prefix_of_prefix_length_le hp (List.prefix_append l [e]) hl)
  · right
    have h1 : p.length ≤ l.length + 1 := by
      have := hp.length_le
      simpa using this
    have h2 : p.length = (l ++ [e]).length := by
      simp only [List.length_append, List.length_singleton]
      omega
    exact hp.eq_of_length h2

/-- A funnel step leaves the timeline unchanged (push) or appends exactly
one event (start/finish). -/
theorem funnelStep_trace {a b : FunnelState} (h : FunnelStep a b) :
    b.trace = a.trace ∨ ∃ e, b.trace = a.trace ++ [e] := by
  cases h with
  | push => exact Or.inl rfl
  | start t rest hrun hq => exact Or.inr ⟨QEv.begin t, rfl⟩
  | finish t hrun => exact Or.inr ⟨QEv.finish t, rfl⟩

/-- Every instant of a reachable timeline is itself the timeline of a
reachable funnel state: each step appends at most one event. -/
theorem funnelReach_trace_state {s : FunnelState}
    (h : FunnelReach initFunnel s) :
    ∀ p : List QEv, p <+: s.trace →
      ∃ s', FunnelReach initFunnel s' ∧ s'.trace = p := by
  induction h with
  | refl =>
    intro p hp
    have hpn : p = [] := List.prefix_nil.mp (by simpa [initFunnel] using hp)
    exact ⟨initFunnel, FunnelReach.refl initFunnel, by simp [initFunnel, hpn]⟩
  | tail hr hstep ih =>
    intro p hp
    rcases funnelStep_trace hstep with heq | ⟨e, heq⟩
    · rw [heq] at hp
      exact ih p hp
    · rw [heq] at hp
      rcases prefix_snoc p _ e hp with hp2 | hp2
      · exact ih p hp2
      · exact ⟨_, FunnelReach.tail hr hstep, heq.trans hp2.symm⟩

/-- Claim C4: operations pushed onto the collate funnel by `outputAsync`
calls from any number of lanes execute with mutual exclusion — at every
instant of every reachable timeline, the number of collate executions in
progress (started but not finished) is at most one, so no two
`collateProducts` executions ever overlap. -/
theorem collate_mutual_exclusion (s : FunnelState)
    (hreach : FunnelReach initFunnel s) (p : List QEv) (hp : p <+: s.trace) :
    finishCount p ≤ beginCount p ∧ beginCount p ≤ finishCount p + 1 := by
  obtain ⟨s', hreach', htrace⟩ := funnelReach_trace_state hreach p hp
  have hinv := funnelReach_inv hreach'
  unfold FunnelInv at hinv
  rw [htrace] at hinv
  by_cases hr : s'.running.isSome = true
  · rw [if_pos hr] at hinv
    omega
  · rw [if_neg hr] at hinv
    omega

/-- Intermediate state of the C4 witness: one operation queued. -/
def c4s1 : FunnelState :=
  { queued := [0], running := none, nextId := 1, trace := [] }

/-- Final state of the C4 witness: the operation is executing. -/
def c4s2 : FunnelState :=
  { queued := [], running := some 0, nextId := 1, trace := [QEv.begin 0] }

/-- Witness for C4: after one push and one start, the timeline `[begin 0]`
has one execution in progress — within the mutual-exclusion bound. -/
theorem collate_mutual_exclusion_witness :
    finishCount [QEv.begin 0] ≤ beginCount [QEv.begin 0] ∧
      beginCount [QEv.begin 0] ≤ finishCount [QEv.begin 0] + 1 :=
  collate_mutual_exclusion c4s2
    (FunnelReach.tail
      (FunnelReach.tail (FunnelReach.refl initFunnel)
        (show FunnelStep initFunnel c4s1 from FunnelStep.push initFunnel))
      (show FunnelStep c4s1 c4s2 from FunnelStep.start c4s1 0 [] rfl rfl))
    [QEv.begin 0] (List.prefix_refl _)

end RootSerialization
